import Mathlib

set_option maxRecDepth 100000

/-!
Verification of the chunked-upload subsystem of `juicebox-omega`
(`src/src/handlers.rs`, `src/src/state.rs`) against its natural-language
specification.  The Rust handlers are shallowly embedded as pure Lean
functions over an explicit `AppState`; filesystem effects (chunk files,
staging directories, final artifacts) are part of the state, and the one
environmental failure a claim depends on (directory creation failing
during init) is an explicit boolean parameter.
-/

/- ## Filename sanitization (`sanitize_filename`) and a path-resolution model -/

/-- Is `c` a path-separator character? -/
def isPathSep (c : Char) : Bool := c == '/' || c == '\\'

/-- Characters kept by the sanitizer: letters, digits, `-`, `_`, `.`. -/
def keepChar (c : Char) : Bool := c.isAlphanum || c == '-' || c == '_' || c == '.'

/-- Modelled from the spec: the module `utils` with `fn sanitize_filename` is
declared by `src/src/handlers.rs` (`use crate::utils::sanitize_filename`) but
its source file is not among the provided sources; only its unit tests
(`src/tests/utils_tests.rs`) and call sites are.  Following spec §4.1, the
sanitizer keeps letters, digits, `-`, `_` and `.`, drops every other
character (in particular every path separator), and then strips the leading
run of `.` characters.  This reproduces all eight cases of
`tests/utils_tests.rs`. -/
def sanitizeChars (cs : List Char) : List Char :=
  (cs.filter keepChar).dropWhile (fun c => c == '.')

/-- Modelled from the spec: see `sanitizeChars`. -/
def sanitize_filename (s : String) : String := String.mk (sanitizeChars s.data)

/-- Split a character list into path components at `/`. -/
def splitOnSep : List Char → List (List Char)
  | [] => [[]]
  | c :: rest =>
    let r := splitOnSep rest
    if c = '/' then [] :: r
    else
      match r with
      | [] => [[c]]
      | h :: t => (c :: h) :: t

/-- Resolve path components against an accumulated directory stack:
empty and `.` components are skipped, `..` pops one directory, and any
other component is pushed. -/
def resolveComponents (acc : List (List Char)) : List (List Char) → List (List Char)
  | [] => acc
  | c :: rest =>
    if c = [] ∨ c = ['.'] then resolveComponents acc rest
    else if c = ['.', '.'] then resolveComponents acc.dropLast rest
    else resolveComponents (acc ++ [c]) rest

/-- Join a raw name to a base directory and resolve it: an absolute name
(leading `/`) resets to the filesystem root, otherwise the name's
components are resolved relative to the base. -/
def joinResolve (base : List (List Char)) (name : List Char) : List (List Char) :=
  if name.head? = some '/' then resolveComponents [] (splitOnSep name)
  else resolveComponents base (splitOnSep name)

/- ## The `total_chunks` computation of `init_chunked_upload`

`src/src/handlers.rs:349` computes
`(payload.total_size as f64 / payload.chunk_size as f64).ceil() as usize`.
The model below embeds the IEEE-754 binary64 semantics of that expression:
`u64 -> f64` conversion and `f64` division both round to nearest, ties to
even, with a 53-bit significand; `f64::ceil` is exact; `as usize` saturates
(`+inf` to `usize::MAX`, `NaN` to `0`).  Finite nonnegative doubles are
represented by exact rationals `num/den`. -/

/-- An exact nonnegative rational `num / den`, used to represent finite
nonnegative binary64 values. -/
structure F64Val where
  num : Nat
  den : Nat
  deriving DecidableEq

/-- Fuelled floor of `log2`; exact for positive inputs below `2 ^ 4096`. -/
def lg2Aux : Nat → Nat → Nat
  | 0, _ => 0
  | fuel + 1, n => if n ≤ 1 then 0 else lg2Aux fuel (n / 2) + 1

/-- Floor of `log2 n` for `n > 0`. -/
def lg2 (n : Nat) : Nat := lg2Aux 4096 n

/-- Does `2 ^ e ≤ n / d` hold (with `e : Int`, `d > 0`)? -/
def pow2LeRat (e : Int) (n d : Nat) : Bool :=
  if 0 ≤ e then 2 ^ e.toNat * d ≤ n else d ≤ n * 2 ^ (-e).toNat

/-- Is `e` the binary exponent of `n / d`, i.e. `2 ^ e ≤ n / d < 2 ^ (e+1)`? -/
def isExpOf (n d : Nat) (e : Int) : Bool :=
  pow2LeRat e n d && !pow2LeRat (e + 1) n d

/-- The binary exponent of `n / d` for `n, d > 0`, found by checking the
three candidates around `lg2 n - lg2 d` (the true exponent is always one
of them). -/
def expOf (n d : Nat) : Int :=
  let g : Int := (lg2 n : Int) - (lg2 d : Int)
  if isExpOf n d (g - 1) then g - 1
  else if isExpOf n d g then g
  else if isExpOf n d (g + 1) then g + 1
  else g

/-- Round the positive rational `n / d` to the nearest binary64 value
(ties to even, 53-bit significand).  Subnormals and overflow to infinity
are irrelevant for the magnitudes produced by `u64` inputs and are not
modelled. -/
def rnPos (n d : Nat) : F64Val :=
  let e := expOf n d
  let s := 52 - e
  let num := if 0 ≤ s then n * 2 ^ s.toNat else n
  let den := if 0 ≤ s then d else d * 2 ^ (-s).toNat
  let q := num / den
  let r := num % den
  let m := if 2 * r > den ∨ (2 * r = den ∧ q % 2 = 1) then q + 1 else q
  let m1 := if m = 2 ^ 53 then 2 ^ 52 else m
  let e1 := if m = 2 ^ 53 then e + 1 else e
  if 0 ≤ e1 - 52 then ⟨m1 * 2 ^ (e1 - 52).toNat, 1⟩ else ⟨m1, 2 ^ (52 - e1).toNat⟩

/-- Round the nonnegative rational `n / d` to the nearest binary64 value. -/
def rnRat (n d : Nat) : F64Val := if n = 0 then ⟨0, 1⟩ else rnPos n d

/-- The binary64 value of the integer `n` (Rust `n as f64`). -/
def rnNat (n : Nat) : F64Val := rnRat n 1

/-- Correctly rounded binary64 division of the finite values `a / b`
(for `b > 0`): round the exact quotient to nearest, ties to even. -/
def rnDiv (a b : F64Val) : F64Val := rnRat (a.num * b.den) (a.den * b.num)

/-- `f64::ceil` of a nonnegative finite value, as a natural number (the
result of `ceil` on these magnitudes is exactly representable). -/
def fceil (x : F64Val) : Nat := (x.num + x.den - 1) / x.den

/-- `usize::MAX` on the 64-bit targets this server is built for. -/
def usizeMax : Nat := 2 ^ 64 - 1

/-- The value of `(total_size as f64 / chunk_size as f64).ceil() as usize`
from `src/src/handlers.rs:349`.  For `chunk_size = 0` the division yields
`NaN` (when `total_size = 0`, cast saturates to `0`) or `+inf` (otherwise,
cast saturates to `usize::MAX`); no error is raised.  Otherwise the f64
quotient is rounded, ceiled exactly, and saturated into `usize`. -/
def computeTotalChunks (total_size chunk_size : Nat) : Nat :=
  if chunk_size = 0 then
    if total_size = 0 then 0 else usizeMax
  else
    min (fceil (rnDiv (rnNat total_size) (rnNat chunk_size))) usizeMax

/- ## Data model (`src/src/state.rs`) and error taxonomy -/

/-- `ChunkedUploadMetadata` from `src/src/state.rs`: per-upload bookkeeping.
`received_chunks` is the `HashSet<usize>` of chunk indices marked received. -/
structure ChunkedUploadMetadata where
  filename : String
  total_size : Nat
  chunk_size : Nat
  total_chunks : Nat
  received_chunks : Finset Nat
  deriving DecidableEq

/-- The error outcomes of the chunked-upload handlers: `notFound` is the
404 "Upload ID not found" response, `incomplete r t` is the 400
"Missing chunks: received r/t" response, and `ioError` stands for any 500
internal filesystem failure. -/
inductive UploadError where
  | notFound : UploadError
  | incomplete : Nat → Nat → UploadError
  | ioError : UploadError
  deriving DecidableEq

/-- Decidable equality of `Except` results, for evaluating the handlers at
concrete inputs. -/
instance {ε α : Type _} [DecidableEq ε] [DecidableEq α] : DecidableEq (Except ε α)
  | Except.ok a, Except.ok b => decidable_of_iff (a = b) (by simp)
  | Except.error a, Except.error b => decidable_of_iff (a = b) (by simp)
  | Except.ok _, Except.error _ => isFalse (by simp)
  | Except.error _, Except.ok _ => isFalse (by simp)

/-- The server state visible to the chunked-upload handlers: the
`chunked_uploads` DashMap (`registry`), the chunk files under
`.chunks/<upload_id>/chunk_<n>` (`chunkStore`), the existence of each
staging directory `.chunks/<upload_id>` (`stagingDirs`), and the final
files in `files_dir` keyed by filename (`files`).  Bytes are `List Nat`. -/
structure AppState where
  registry : String → Option ChunkedUploadMetadata
  chunkStore : String → Nat → Option (List Nat)
  stagingDirs : String → Bool
  files : String → Option (List Nat)

/-- The state of a freshly started server: no sessions, no chunks, no files. -/
def emptyState : AppState :=
  { registry := fun _ => none
    chunkStore := fun _ _ => none
    stagingDirs := fun _ => false
    files := fun _ => none }

/- ## The three handlers (`src/src/handlers.rs`) -/

/-- `init_chunked_upload` (`src/src/handlers.rs:341`): computes
`total_chunks` (line 349), builds the metadata with an empty
`received_chunks`, inserts it into the registry (line 360), and only then
creates the staging directory (line 366).  The generated uuid is the
`upload_id` parameter; `mkdir_ok` says whether `fs::create_dir_all`
succeeds.  On mkdir failure the handler returns the 500 error without
removing the just-inserted registry entry. -/
def init_chunked_upload (s : AppState) (upload_id filename : String)
    (total_size chunk_size : Nat) (mkdir_ok : Bool) :
    Except UploadError (String × Nat × Nat) × AppState :=
  let sanitized := sanitize_filename filename
  let total_chunks := computeTotalChunks total_size chunk_size
  let metadata : ChunkedUploadMetadata :=
    { filename := sanitized, total_size := total_size, chunk_size := chunk_size
      total_chunks := total_chunks, received_chunks := ∅ }
  let s1 : AppState :=
    { s with registry := fun k => if k = upload_id then some metadata else s.registry k }
  if mkdir_ok then
    (Except.ok (upload_id, chunk_size, total_chunks),
     { s1 with stagingDirs := fun k => if k = upload_id then true else s.stagingDirs k })
  else
    (Except.error UploadError.ioError, s1)

/-- `upload_chunk` (`src/src/handlers.rs:386`): looks the upload id up in
the registry (404 if absent), writes the chunk bytes to
`.chunks/<upload_id>/chunk_<chunk_number>` — which fails with a 500 if the
staging directory does not exist, leaving `received_chunks` untouched —
and then inserts `chunk_number` into `received_chunks` (line 466) with no
bound check against `total_chunks`.  Returns
`(chunk_number, received_count, total_chunks)`. -/
def upload_chunk (s : AppState) (upload_id : String) (chunk_number : Nat)
    (data : List Nat) :
    Except UploadError (Nat × Nat × Nat) × AppState :=
  match s.registry upload_id with
  | none => (Except.error UploadError.notFound, s)
  | some metadata =>
    if s.stagingDirs upload_id then
      let metadata' :=
        { metadata with received_chunks := insert chunk_number metadata.received_chunks }
      (Except.ok (chunk_number, metadata'.received_chunks.card, metadata.total_chunks),
       { s with
         chunkStore := fun id n =>
           if id = upload_id ∧ n = chunk_number then some data else s.chunkStore id n
         registry := fun k => if k = upload_id then some metadata' else s.registry k })
    else
      (Except.error UploadError.ioError, s)

/-- The assembly loop of `complete_chunked_upload`
(`src/src/handlers.rs:529`): read chunks `0, 1, ..., total - 1` in
ascending order, appending each to the output.  Returns the bytes written
so far and whether every read succeeded; the loop stops writing at the
first missing chunk (whose read fails with a 500). -/
def assembleLoop (store : Nat → Option (List Nat)) : Nat → List Nat × Bool
  | 0 => ([], true)
  | n + 1 =>
    let p := assembleLoop store n
    if p.2 then
      match store n with
      | some c => (p.1 ++ c, true)
      | none => (p.1, false)
    else p

/-- The concatenation, in ascending numeric order, of the chunk artifacts
for indices `0..total` (a missing chunk contributes nothing; under a
successful assembly every chunk is present and this is the assembled
content). -/
def chunkConcat (store : Nat → Option (List Nat)) (total : Nat) : List Nat :=
  ((List.range total).map (fun n => (store n).getD [])).flatten

/-- `complete_chunked_upload` (`src/src/handlers.rs:481`): removes the
session from the registry first (line 488, 404 if absent), then checks
`received_chunks.len() == total_chunks` (line 499) — on mismatch it
returns the 400 incomplete error with the session already removed.
Otherwise it creates the final file (truncating), appends chunks
`0..total_chunks` in order (a missing chunk aborts with a 500, leaving the
partial file), and on success removes the staging directory and returns
`(filename, final_size)` where `final_size` is the assembled file's
length.  Staging teardown is best-effort in the source (`let _ = ...`) and
is modelled as succeeding. -/
def complete_chunked_upload (s : AppState) (upload_id : String) :
    Except UploadError (String × Nat) × AppState :=
  match s.registry upload_id with
  | none => (Except.error UploadError.notFound, s)
  | some metadata =>
    let s1 : AppState :=
      { s with registry := fun k => if k = upload_id then none else s.registry k }
    if metadata.received_chunks.card ≠ metadata.total_chunks then
      (Except.error
         (UploadError.incomplete metadata.received_chunks.card metadata.total_chunks), s1)
    else
      let asm := assembleLoop (s.chunkStore upload_id) metadata.total_chunks
      let s2 : AppState :=
        { s1 with files := fun g => if g = metadata.filename then some asm.1 else s.files g }
      if asm.2 then
        (Except.ok (metadata.filename, asm.1.length),
         { s2 with
           chunkStore := fun id n => if id = upload_id then none else s.chunkStore id n
           stagingDirs := fun id => if id = upload_id then false else s.stagingDirs id })
      else
        (Except.error UploadError.ioError, s2)

/- ## Operation sequences and reachability -/

/-- One client-visible operation of the chunked-upload protocol. -/
inductive Op where
  | init : String → String → Nat → Nat → Bool → Op
  | ingest : String → Nat → List Nat → Op
  | complete : String → Op

/-- Apply one operation to the state, discarding the response. -/
def applyOp (s : AppState) : Op → AppState
  | Op.init upload_id filename total_size chunk_size mkdir_ok =>
    (init_chunked_upload s upload_id filename total_size chunk_size mkdir_ok).2
  | Op.ingest upload_id chunk_number data =>
    (upload_chunk s upload_id chunk_number data).2
  | Op.complete upload_id => (complete_chunked_upload s upload_id).2

/-- Run a sequence of operations from the fresh-server state. -/
def runOps (ops : List Op) : AppState := ops.foldl applyOp emptyState

/-- States reachable from the fresh-server state by sequences of init,
ingest and complete in which every ingest call's chunk index is below the
target session's `total_chunks` at the moment of the call (ingests to
unknown ids are unrestricted — they fail without touching the registry). -/
inductive ReachedInRange : AppState → Prop where
  | base : ReachedInRange emptyState
  | init (s : AppState) (h : ReachedInRange s) (upload_id filename : String)
      (total_size chunk_size : Nat) (mkdir_ok : Bool) :
      ReachedInRange (applyOp s (Op.init upload_id filename total_size chunk_size mkdir_ok))
  | ingest (s : AppState) (h : ReachedInRange s) (upload_id : String)
      (chunk_number : Nat) (data : List Nat)
      (hn : ∀ m, s.registry upload_id = some m → chunk_number < m.total_chunks) :
      ReachedInRange (applyOp s (Op.ingest upload_id chunk_number data))
  | complete (s : AppState) (h : ReachedInRange s) (upload_id : String) :
      ReachedInRange (applyOp s (Op.complete upload_id))

/- ## Helper lemmas -/

lemma head?_dropWhile_not (p : Char → Bool) :
    ∀ (l : List Char) (c : Char), (l.dropWhile p).head? = some c → p c = false := by
  intro l
  induction l with
  | nil => intro c h; simp at h
  | cons a t ih =>
    intro c h
    cases hp : p a with
    | true =>
      rw [List.dropWhile_cons, if_pos (by simp [hp])] at h
      exact ih c h
    | false =>
      rw [List.dropWhile_cons, if_neg (by simp [hp])] at h
      simp only [List.head?_cons, Option.some.injEq] at h
      rw [← h]
      exact hp

lemma keepChar_not_sep {c : Char} (h : keepChar c = true) : isPathSep c = false := by
  cases hI : isPathSep c
  · rfl
  · have : c = '/' ∨ c = '\\' := by simpa [isPathSep] using hI
    rcases this with rfl | rfl <;> exact absurd h (by decide)

lemma mem_sanitizeChars_keep {cs : List Char} {c : Char} (h : c ∈ sanitizeChars cs) :
    keepChar c = true := by
  have h1 : c ∈ cs.filter keepChar :=
    List.Sublist.subset (List.dropWhile_sublist _) h
  exact (List.mem_filter.mp h1).2

lemma sanitizeChars_head_ne_dot (cs : List Char) :
    (sanitizeChars cs).head? ≠ some '.' := by
  intro h
  have := head?_dropWhile_not (fun c => c == '.') _ _ h
  simp at this

lemma splitOnSep_eq_single {cs : List Char} (h : ∀ c ∈ cs, c ≠ '/') :
    splitOnSep cs = [cs] := by
  induction cs with
  | nil => rfl
  | cons c t ih =>
    have hc : c ≠ '/' := h c (by simp)
    have ht : splitOnSep t = [t] := ih (fun x hx => h x (by simp [hx]))
    simp [splitOnSep, hc, ht]

lemma resolveComponents_single {base : List (List Char)} {r : List Char}
    (hne : r ≠ []) (hdot : r ≠ ['.']) (hdots : r ≠ ['.', '.']) :
    resolveComponents base [r] = base ++ [r] := by
  simp [resolveComponents, hne, hdot, hdots]

lemma assembleLoop_ok_eq {store : Nat → Option (List Nat)} :
    ∀ total, (assembleLoop store total).2 = true →
      (assembleLoop store total).1 = chunkConcat store total := by
  intro total
  induction total with
  | zero => intro _; simp [assembleLoop, chunkConcat]
  | succ n ih =>
    intro h
    rcases hp : assembleLoop store n with ⟨acc, ok⟩
    cases ok
    · simp [assembleLoop, hp] at h
    · cases hs : store n with
      | none => simp [assembleLoop, hp, hs] at h
      | some c =>
        have h1 : assembleLoop store (n + 1) = (acc ++ c, true) := by
          simp [assembleLoop, hp, hs]
        rw [h1]
        have hacc : acc = chunkConcat store n := by
          have h2 := ih (by simp [hp])
          simpa [hp] using h2
        simp [hacc, chunkConcat, List.range_succ, hs]

/- ## Claim C2 -/

/-- **C2.** For every input string `s`, `sanitize_filename s` contains no
path-separator character and does not begin with `.`; joining the result
to any fixed base directory and resolving it never leaves that directory:
the resolved path is the base itself (for the empty result) or the base
extended by the single sanitized component. -/
theorem sanitize_filename_within_base (s : String) (base : List (List Char)) :
    (∀ c ∈ (sanitize_filename s).data, isPathSep c = false) ∧
    (sanitize_filename s).data.head? ≠ some '.' ∧
    ∃ rest, joinResolve base (sanitize_filename s).data = base ++ rest ∧
      (rest = [] ∨ rest = [(sanitize_filename s).data]) := by
  have hdata : (sanitize_filename s).data = sanitizeChars s.data := rfl
  rw [hdata]
  refine ⟨fun c hc => keepChar_not_sep (mem_sanitizeChars_keep hc),
          sanitizeChars_head_ne_dot _, ?_⟩
  have hnosep : ∀ c ∈ sanitizeChars s.data, c ≠ '/' := by
    intro c hc hEq
    have h1 := keepChar_not_sep (mem_sanitizeChars_keep hc)
    subst hEq
    simp [isPathSep] at h1
  have hsplit : splitOnSep (sanitizeChars s.data) = [sanitizeChars s.data] :=
    splitOnSep_eq_single hnosep
  have hhead := sanitizeChars_head_ne_dot s.data
  cases hR : sanitizeChars s.data with
  | nil =>
    refine ⟨[], ?_, Or.inl rfl⟩
    simp [joinResolve, splitOnSep, resolveComponents]
  | cons c t =>
    rw [hR] at hsplit hhead
    have hc_slash : c ≠ '/' := by
      have := hnosep c (by rw [hR]; simp)
      exact this
    have hc_dot : c ≠ '.' := by
      intro hEq
      exact hhead (by rw [hEq]; rfl)
    refine ⟨[c :: t], ?_, Or.inr rfl⟩
    have hne : c :: t ≠ ([] : List Char) := by simp
    have hdot : c :: t ≠ ['.'] := by
      intro hEq
      exact hc_dot (List.head_eq_of_cons_eq hEq)
    have hdots : c :: t ≠ ['.', '.'] := by
      intro hEq
      exact hc_dot (List.head_eq_of_cons_eq hEq)
    have habs : (c :: t).head? ≠ some '/' :=
      fun hEq => hc_slash (Option.some.inj hEq)
    unfold joinResolve
    rw [if_neg habs, hsplit, resolveComponents_single hne hdot hdots]

/- ## Claim C4: the received-chunks bound as a reachability invariant -/

/-- Every session in the registry has `received_chunks ⊆ [0, total_chunks)`. -/
def RegistryBounded (s : AppState) : Prop :=
  ∀ id m, s.registry id = some m → ∀ i ∈ m.received_chunks, i < m.total_chunks

lemma registryBounded_empty : RegistryBounded emptyState := by
  intro id m hm
  simp [emptyState] at hm

lemma registryBounded_init {s : AppState} (hs : RegistryBounded s)
    (upload_id filename : String) (total_size chunk_size : Nat) (mkdir_ok : Bool) :
    RegistryBounded (init_chunked_upload s upload_id filename total_size chunk_size mkdir_ok).2 := by
  intro id m hm
  unfold init_chunked_upload at hm
  cases mkdir_ok <;> simp only [if_true, if_false, Bool.false_eq_true, ite_false, ite_true] at hm <;>
  · by_cases hid : id = upload_id
    · simp only [hid, if_pos rfl] at hm
      cases hm.symm
      intro i hi
      simp at hi
    · simp only [if_neg hid] at hm
      exact hs id m hm

lemma registryBounded_ingest {s : AppState} (hs : RegistryBounded s)
    (upload_id : String) (chunk_number : Nat) (data : List Nat)
    (hn : ∀ m, s.registry upload_id = some m → chunk_number < m.total_chunks) :
    RegistryBounded (upload_chunk s upload_id chunk_number data).2 := by
  intro id m hm
  unfold upload_chunk at hm
  cases hreg : s.registry upload_id with
  | none => rw [hreg] at hm; exact hs id m hm
  | some metadata =>
    rw [hreg] at hm
    cases hstaging : s.stagingDirs upload_id with
    | false => simp only [hstaging, Bool.false_eq_true, ite_false] at hm; exact hs id m hm
    | true =>
      simp only [hstaging, ite_true] at hm
      by_cases hid : id = upload_id
      · simp only [hid, if_pos rfl, Option.some.injEq] at hm
        cases hm
        intro i hi
        rcases Finset.mem_insert.mp hi with rfl | hi
        · exact hn metadata hreg
        · exact hs upload_id metadata hreg i hi
      · simp only [if_neg hid] at hm
        exact hs id m hm

lemma complete_registry (s : AppState) (upload_id id : String) :
    (complete_chunked_upload s upload_id).2.registry id
      = if s.registry upload_id = none then s.registry id
        else if id = upload_id then none else s.registry id := by
  cases hreg : s.registry upload_id with
  | none => simp [complete_chunked_upload, hreg]
  | some metadata =>
    simp only [complete_chunked_upload, hreg]
    split
    · simp [hreg]
    · split <;> simp [hreg]

lemma registryBounded_complete {s : AppState} (hs : RegistryBounded s)
    (upload_id : String) :
    RegistryBounded (complete_chunked_upload s upload_id).2 := by
  intro id m hm
  rw [complete_registry] at hm
  split at hm
  · exact hs id m hm
  · split at hm
    · cases hm
    · exact hs id m hm

/-- **C4 (amended).** In every state reachable by a sequence of init,
ingest and complete operations in which each ingest call's index is below
its target session's `total_chunks`, the `received_chunks` set of every
session in the registry is a subset of `[0, total_chunks)`.  (The
unrestricted claim is refuted by `received_chunks_bound_counterexample`:
`upload_chunk` performs no bound check on the index.) -/
theorem received_chunks_bounded_of_in_range (s : AppState) (h : ReachedInRange s) :
    RegistryBounded s := by
  induction h with
  | base => exact registryBounded_empty
  | init s h upload_id filename total_size chunk_size mkdir_ok ih =>
    exact registryBounded_init ih upload_id filename total_size chunk_size mkdir_ok
  | ingest s h upload_id chunk_number data hn ih =>
    exact registryBounded_ingest ih upload_id chunk_number data hn
  | complete s h upload_id ih =>
    exact registryBounded_complete ih upload_id

/- ## Claim C6: when does complete proceed to assembly? -/

/-- Does `complete_chunked_upload` get past the completeness check, i.e.
proceed to assembly (ending in success or in an internal assembly error),
rather than fail with `notFound` or `incomplete`? -/
def completeProceeds (s : AppState) (upload_id : String) : Bool :=
  match (complete_chunked_upload s upload_id).1 with
  | Except.ok _ => true
  | Except.error UploadError.ioError => true
  | Except.error _ => false

/-- **C6 (amended).** `complete` proceeds to assembly exactly when
`received_chunks.card = total_chunks`.  This cardinality check does not
distinguish in-range from out-of-range indices, so it neither lets a
client with extra out-of-range indices plus all in-range ones complete
(the cardinality is then too large) nor guarantees that assembly finds
every chunk of `[0, total_chunks)` (an out-of-range index can stand in
for a missing in-range one, making assembly hit a missing chunk, surfaced
as an internal error); see `complete_check_counterexample`. -/
theorem complete_proceeds_iff_card_eq (s : AppState) (upload_id : String)
    (m : ChunkedUploadMetadata) (hm : s.registry upload_id = some m) :
    completeProceeds s upload_id = true ↔
      m.received_chunks.card = m.total_chunks := by
  by_cases hc : m.received_chunks.card = m.total_chunks
  · refine ⟨fun _ => hc, fun _ => ?_⟩
    unfold completeProceeds complete_chunked_upload
    simp only [hm]
    rw [if_neg (not_not_intro hc)]
    cases hasm : (assembleLoop (s.chunkStore upload_id) m.total_chunks).2 <;>
      simp [hasm]
  · refine ⟨fun hp => ?_, fun h => absurd h hc⟩
    exfalso
    unfold completeProceeds complete_chunked_upload at hp
    simp only [hm] at hp
    rw [if_pos hc] at hp
    simp at hp

/- ## Claim C7: a successful complete assembles the chunks in order -/

/-- **C7.** A successful `complete` returns the session's target filename
together with the assembled size, writes exactly one final artifact whose
content is the concatenation of the chunk artifacts for indices
`0..total_chunks` in ascending numeric order (its length is the sum of
the chunk lengths), leaves every other file unchanged, and removes the
staging area (directory and chunk files) for that upload id. -/
theorem complete_success_assembles (s : AppState) (upload_id : String)
    (m : ChunkedUploadMetadata) (hm : s.registry upload_id = some m)
    (f : String) (sz : Nat) (s' : AppState)
    (hok : complete_chunked_upload s upload_id = (Except.ok (f, sz), s')) :
    f = m.filename ∧
    s'.files m.filename = some (chunkConcat (s.chunkStore upload_id) m.total_chunks) ∧
    sz = (chunkConcat (s.chunkStore upload_id) m.total_chunks).length ∧
    sz = ((List.range m.total_chunks).map
            (fun n => ((s.chunkStore upload_id n).getD []).length)).sum ∧
    (∀ g, g ≠ m.filename → s'.files g = s.files g) ∧
    s'.stagingDirs upload_id = false ∧
    ∀ n, s'.chunkStore upload_id n = none := by
  unfold complete_chunked_upload at hok
  simp only [hm] at hok
  split at hok
  · simp at hok
  · split at hok
    · rename_i hcard hasm
      simp only [Prod.mk.injEq, Except.ok.injEq] at hok
      obtain ⟨⟨hf, hsz⟩, hs'⟩ := hok
      have hconcat := assembleLoop_ok_eq m.total_chunks hasm
      refine ⟨hf.symm, ?_, ?_, ?_, ?_, ?_, ?_⟩
      · rw [← hs']
        simp [hconcat]
      · rw [← hsz, hconcat]
      · rw [← hsz, hconcat]
        simp only [chunkConcat, List.length_flatten, List.map_map]
        rfl
      · intro g hg
        rw [← hs']
        simp [hg]
      · rw [← hs']
        simp
      · intro n
        rw [← hs']
        simp
    · simp at hok

/- ## Claim C9: completion is exactly-once per id -/

/-- **C9.** `complete` removes the session from the registry before
assembling, so after one `complete` call has succeeded for an id the
session is gone and every further `complete` or ingest call with that id
fails with `notFound` (hence no second assembly of the same id can
occur); and a `complete` on an id that never existed also fails with
`notFound`. -/
theorem complete_exactly_once (s : AppState) (upload_id : String) :
    (∀ r s', complete_chunked_upload s upload_id = (Except.ok r, s') →
       s'.registry upload_id = none ∧
       (complete_chunked_upload s' upload_id).1 = Except.error UploadError.notFound ∧
       ∀ n data, (upload_chunk s' upload_id n data).1 = Except.error UploadError.notFound) ∧
    (s.registry upload_id = none →
       (complete_chunked_upload s upload_id).1 = Except.error UploadError.notFound) := by
  constructor
  · intro r s' hok
    cases hreg : s.registry upload_id with
    | none =>
      exfalso
      unfold complete_chunked_upload at hok
      rw [hreg] at hok
      simp at hok
    | some metadata =>
      have h2 : (complete_chunked_upload s upload_id).2 = s' := by rw [hok]
      have hnone : s'.registry upload_id = none := by
        rw [← h2, complete_registry, hreg]
        simp
      refine ⟨hnone, ?_, ?_⟩
      · unfold complete_chunked_upload
        rw [hnone]
      · intro n data
        unfold upload_chunk
        rw [hnone]
  · intro h
    unfold complete_chunked_upload
    rw [h]

/- ## Claim C10: a zero-size upload completes immediately and empty -/

lemma computeTotalChunks_zero {chunk_size : Nat} (h : chunk_size ≠ 0) :
    computeTotalChunks 0 chunk_size = 0 := by
  unfold computeTotalChunks
  rw [if_neg h]
  simp [rnNat, rnRat, rnDiv, fceil]

/-- **C10.** An init with `total_size = 0` and any nonzero `chunk_size`
yields `total_chunks = 0`, and a complete call issued immediately
afterwards with no ingests succeeds, creating an empty final artifact
under the sanitized filename and returning size 0. -/
theorem zero_size_upload_completes_empty (s : AppState)
    (upload_id filename : String) (chunk_size : Nat) (h : chunk_size ≠ 0) :
    (init_chunked_upload s upload_id filename 0 chunk_size true).1
      = Except.ok (upload_id, chunk_size, 0) ∧
    (complete_chunked_upload
        (init_chunked_upload s upload_id filename 0 chunk_size true).2 upload_id).1
      = Except.ok (sanitize_filename filename, 0) ∧
    (complete_chunked_upload
        (init_chunked_upload s upload_id filename 0 chunk_size true).2 upload_id).2.files
        (sanitize_filename filename) = some [] := by
  have hT := computeTotalChunks_zero h
  refine ⟨?_, ?_, ?_⟩ <;>
    simp [init_chunked_upload, complete_chunked_upload, hT, assembleLoop]

/- ## Concrete scenarios -/

/-- The bytes of `"hello"`. -/
def helloBytes : List Nat := [104, 101, 108, 108, 111]

/-- The bytes of `"world"`. -/
def worldBytes : List Nat := [119, 111, 114, 108, 100]

/-- A 2-chunk upload of which only chunk 0 has been ingested. -/
def partialUploadState : AppState :=
  runOps [Op.init "u" "report.bin" 10 5 true, Op.ingest "u" 0 helloBytes]

/-- A 2-chunk upload with both chunks 0 and 1 ingested. -/
def fullUploadState : AppState :=
  runOps [Op.init "u" "report.bin" 10 5 true, Op.ingest "u" 0 helloBytes,
          Op.ingest "u" 1 worldBytes]

/-- A 2-chunk upload into which the out-of-range index 5 was ingested. -/
def straySessionState : AppState :=
  runOps [Op.init "u" "f.bin" 10 5 true, Op.ingest "u" 5 helloBytes]

/-- A 2-chunk upload with chunk 0 and the out-of-range index 5 ingested:
`received_chunks` has cardinality 2 but index 1 is missing. -/
def strayBothState : AppState :=
  runOps [Op.init "u" "f.bin" 10 5 true, Op.ingest "u" 0 helloBytes,
          Op.ingest "u" 5 worldBytes]

/-- A 2-chunk upload with every in-range index (0 and 1) ingested plus the
out-of-range index 5: `received_chunks` has cardinality 3. -/
def overIngestState : AppState :=
  runOps [Op.init "u" "f.bin" 10 5 true, Op.ingest "u" 0 helloBytes,
          Op.ingest "u" 1 worldBytes, Op.ingest "u" 5 worldBytes]

/- ## Claim C1 -/

/-- **C1.** Calling complete while a chunk is missing fails with the
incomplete error reporting `(received, total) = (1, 2)` — but, contrary to
the claim, the session has been removed from the registry by the call: the
subsequent ingest of the missing chunk and the retried complete both fail
with `notFound` instead of succeeding. -/
theorem complete_incomplete_removes_session :
    (complete_chunked_upload partialUploadState "u").1
      = Except.error (UploadError.incomplete 1 2) ∧
    (complete_chunked_upload partialUploadState "u").2.registry "u" = none ∧
    (upload_chunk (complete_chunked_upload partialUploadState "u").2 "u" 1 worldBytes).1
      = Except.error UploadError.notFound ∧
    (complete_chunked_upload (complete_chunked_upload partialUploadState "u").2 "u").1
      = Except.error UploadError.notFound := by decide

/- ## Claim C3 -/

/-- **C3.** Init with `chunk_size = 0` is not rejected: it succeeds,
returns `total_chunks = usize::MAX` (the f64 division yields `+inf`, which
the saturating cast turns into `2 ^ 64 - 1`), and inserts a session with
that `total_chunks` into the registry. -/
theorem init_zero_chunk_size_not_rejected :
    (init_chunked_upload emptyState "u" "f.bin" 1 0 true).1
      = Except.ok ("u", 0, usizeMax) ∧
    usizeMax = 2 ^ 64 - 1 ∧
    (init_chunked_upload emptyState "u" "f.bin" 1 0 true).2.registry "u"
      = some { filename := "f.bin", total_size := 1, chunk_size := 0,
               total_chunks := usizeMax, received_chunks := ∅ } := by decide

/- ## Claim C5 -/

/-- **C5.** Init is not atomic on failure: when creating the staging area
fails, init returns the internal error but the session it inserted
beforehand is still in the registry, with no staging directory — a
half-created session on which every ingest then fails. -/
theorem init_failure_leaves_half_created_session :
    (init_chunked_upload emptyState "u" "f.bin" 10 5 false).1
      = Except.error UploadError.ioError ∧
    (init_chunked_upload emptyState "u" "f.bin" 10 5 false).2.registry "u"
      = some { filename := "f.bin", total_size := 10, chunk_size := 5,
               total_chunks := 2, received_chunks := ∅ } ∧
    (init_chunked_upload emptyState "u" "f.bin" 10 5 false).2.stagingDirs "u" = false ∧
    (upload_chunk (init_chunked_upload emptyState "u" "f.bin" 10 5 false).2 "u" 0 helloBytes).1
      = Except.error UploadError.ioError := by decide

/- ## Claim C8 -/

/-- **C8.** `total_chunks` matches exact ceiling division on the spec's
examples (`1024/256 = 4`, `1000/256 = 4`), but not for every `u64` input:
at `total_size = 2 ^ 53 + 1, chunk_size = 1` the f64 conversion rounds the
size down to `2 ^ 53`, so the result differs from the exact ceiling
`(total_size + chunk_size - 1) / chunk_size = 2 ^ 53 + 1`. -/
theorem total_chunks_examples_and_rounding :
    computeTotalChunks 1024 256 = 4 ∧
    computeTotalChunks 1000 256 = 4 ∧
    computeTotalChunks (2 ^ 53 + 1) 1 = 2 ^ 53 ∧
    computeTotalChunks (2 ^ 53 + 1) 1 ≠ (2 ^ 53 + 1 + 1 - 1) / 1 := by decide

/- ## Counterexamples and witnesses -/

/-- **C4, counterexample.** Ingesting index 5 into a session with
`total_chunks = 2` stores 5 in `received_chunks`: the reachable state
`straySessionState` violates the `[0, total_chunks)` bound. -/
theorem received_chunks_bound_counterexample :
    straySessionState.registry "u" = some
      { filename := "f.bin", total_size := 10, chunk_size := 5,
        total_chunks := 2, received_chunks := insert 5 ∅ } ∧
    ¬ RegistryBounded straySessionState := by
  have hreg : straySessionState.registry "u" = some
      { filename := "f.bin", total_size := 10, chunk_size := 5,
        total_chunks := 2, received_chunks := insert 5 ∅ } := by decide
  refine ⟨hreg, fun hB => ?_⟩
  have h5 := hB "u" _ hreg 5 (by decide)
  exact absurd h5 (by decide)

/-- **C4, witness** for `received_chunks_bounded_of_in_range`, applied to
the concrete in-range trace init; ingest 0. -/
theorem received_chunks_bounded_witness :
    (0 : Nat) <
      ({ filename := "report.bin", total_size := 10, chunk_size := 5,
         total_chunks := 2, received_chunks := insert 0 ∅ }
        : ChunkedUploadMetadata).total_chunks := by
  have h0 : ReachedInRange emptyState := ReachedInRange.base
  have h1 := ReachedInRange.init emptyState h0 "u" "report.bin" 10 5 true
  have h2 := ReachedInRange.ingest _ h1 "u" 0 helloBytes (by
    intro m hm
    have he : (applyOp emptyState (Op.init "u" "report.bin" 10 5 true)).registry "u"
        = some { filename := "report.bin", total_size := 10, chunk_size := 5,
                 total_chunks := 2, received_chunks := ∅ } := by decide
    rw [he] at hm
    cases Option.some.inj hm
    decide)
  have hB := received_chunks_bounded_of_in_range _ h2
  exact hB "u" _ (by decide) 0 (by decide)

/-- **C6, counterexample.** In `strayBothState` the cardinality check
passes (`card = total = 2`) yet assembly hits the missing chunk 1 and
fails with the internal error; and in `overIngestState` every in-range
index was ingested yet complete fails with `incomplete 3 2` because the
out-of-range index inflates the cardinality. -/
theorem complete_check_counterexample :
    (strayBothState.registry "u").map
        (fun m => (m.received_chunks.card, m.total_chunks)) = some (2, 2) ∧
    (complete_chunked_upload strayBothState "u").1
      = Except.error UploadError.ioError ∧
    (complete_chunked_upload overIngestState "u").1
      = Except.error (UploadError.incomplete 3 2) := by decide

/-- **C6, witness** for `complete_proceeds_iff_card_eq` at the fully
ingested concrete session. -/
theorem complete_proceeds_iff_card_eq_witness :
    completeProceeds fullUploadState "u" = true :=
  (complete_proceeds_iff_card_eq fullUploadState "u"
    { filename := "report.bin", total_size := 10, chunk_size := 5,
      total_chunks := 2, received_chunks := insert 1 (insert 0 ∅) }
    (by decide)).mpr (by decide)

/-- **C7, witness** for `complete_success_assembles` at the concrete
hello/world upload. -/
theorem complete_success_assembles_witness :
    (complete_chunked_upload fullUploadState "u").2.files "report.bin"
      = some (chunkConcat (fullUploadState.chunkStore "u") 2) ∧
    10 = (chunkConcat (fullUploadState.chunkStore "u") 2).length := by
  have hok : complete_chunked_upload fullUploadState "u"
      = (Except.ok ("report.bin", 10), (complete_chunked_upload fullUploadState "u").2) :=
    Prod.ext (by decide) rfl
  have h := complete_success_assembles fullUploadState "u"
    { filename := "report.bin", total_size := 10, chunk_size := 5,
      total_chunks := 2, received_chunks := insert 1 (insert 0 ∅) }
    (by decide) "report.bin" 10 (complete_chunked_upload fullUploadState "u").2 hok
  exact ⟨h.2.1, h.2.2.1⟩

/-- **C9, witness** for `complete_exactly_once`: after the hello/world
upload completes, a duplicate complete observes `notFound`. -/
theorem complete_exactly_once_witness :
    (complete_chunked_upload (complete_chunked_upload fullUploadState "u").2 "u").1
      = Except.error UploadError.notFound := by
  have hok : complete_chunked_upload fullUploadState "u"
      = (Except.ok ("report.bin", 10), (complete_chunked_upload fullUploadState "u").2) :=
    Prod.ext (by decide) rfl
  exact ((complete_exactly_once fullUploadState "u").1 ("report.bin", 10)
    (complete_chunked_upload fullUploadState "u").2 hok).2.1

/-- **C10, witness** for `zero_size_upload_completes_empty` at
`chunk_size = 5`. -/
theorem zero_size_upload_completes_empty_witness :
    (5 : Nat) ≠ 0 ∧
    (complete_chunked_upload
        (init_chunked_upload emptyState "u" "report.bin" 0 5 true).2 "u").1
      = Except.ok (sanitize_filename "report.bin", 0) :=
  ⟨by decide,
   (zero_size_upload_completes_empty emptyState "u" "report.bin" 5 (by decide)).2.1⟩

/- ## Sanity checks against the repository's own tests -/

/-- The eight cases of `tests/utils_tests.rs` plus the spec's adversarial
inputs, evaluated on the modelled sanitizer. -/
theorem sanitize_filename_test_vectors :
    sanitize_filename "hello.txt" = "hello.txt" ∧
    sanitize_filename "../hello.txt" = "hello.txt" ∧
    sanitize_filename "foo/bar.txt" = "foobar.txt" ∧
    sanitize_filename "/etc/passwd" = "etcpasswd" ∧
    sanitize_filename "hello-world_123.txt" = "hello-world_123.txt" ∧
    sanitize_filename "hello@world.txt" = "helloworld.txt" ∧
    sanitize_filename ".hidden" = "hidden" ∧
    sanitize_filename "..hidden" = "hidden" ∧
    sanitize_filename "../../etc/passwd" = "etcpasswd" ∧
    sanitize_filename "...." = "" ∧
    sanitize_filename "" = "" := by decide

/-- The raw resolution model does detect traversal on unsanitized names:
`../x` joined to base `b` escapes to `x`, and `/abs` resets to the root. -/
theorem joinResolve_detects_escape :
    joinResolve [['b']] ("../x".data) = [['x']] ∧
    joinResolve [['b']] ("/abs".data) = [['a', 'b', 's']] := by decide

/-- The end-to-end scenario of `tests/handlers_tests.rs`
(`test_complete_chunked_upload`) and spec §8 property 6: hello/world
chunks assemble to `helloworld` of size 10 and the staging area is
removed. -/
theorem end_to_end_upload_example :
    (complete_chunked_upload fullUploadState "u").1 = Except.ok ("report.bin", 10) ∧
    (complete_chunked_upload fullUploadState "u").2.files "report.bin"
      = some (helloBytes ++ worldBytes) ∧
    (complete_chunked_upload fullUploadState "u").2.stagingDirs "u" = false := by decide
